import Mathlib

/-!
Verification of the `hic-convertor` command-line front end
(`src/hic-convertor/src/main.rs`) and of the pipeline components it drives
(`full_pipeline`, `convert_bam_to_pairs`, `sort_pairs`, `deduplicate_pairs`
from the `hic_convertor` library crate).

The first half embeds the dispatch logic of `main` as it is written in
`main.rs`: clap subcommands with required/optional arguments, the
`unwrap_or("4").parse::<u8>().unwrap()` handling of `nproc`, the literal
scratch/stats paths, the `match` on the optional `graph` argument, and the
`?`-propagation (or lack of it) of each stage call's result.

The second half models the pipeline components themselves.  Their bodies are
not part of the repository snapshot (only `main.rs` is), so they are modelled
from the specification: pair records, the duplicate-fingerprint deduplicator,
the bounded-memory multi-worker external merge sort, the alignment-pair
extractor with its statistics accumulator, and the stage orchestrator.
-/

namespace HicConv

/-! ## Rust `u8` parsing, as used for the `nproc` argument -/

/-- Numeric value accumulated over a list of decimal digit characters,
as `from_str_radix` does (most significant digit first). -/
def digitsVal (ds : List Char) : Nat :=
  ds.foldl (fun acc d => acc * 10 + (d.toNat - 48)) 0

/-- Model of Rust's `str::parse::<u8>()` (`u8::from_str`): an optional leading
`+` sign followed by one or more ASCII decimal digits, rejected when the value
exceeds `u8::MAX = 255`.  A leading `-` is rejected for unsigned types, as is
an empty digit string.  Returns `none` exactly when the Rust call returns
`Err` (on which `main.rs` panics via `unwrap`). -/
def parseU8 (s : String) : Option Nat :=
  match s.data with
  | [] => none
  | c :: cs =>
    let ds := if c == '+' then cs else c :: cs
    if ds.isEmpty then none
    else if ds.all Char.isDigit then
      if digitsVal ds ≤ 255 then some (digitsVal ds) else none
    else none

/-! ## The command surface of `main.rs` -/

/-- One parsed subcommand together with its raw argument values.  Every
argument is carried as `Option String`: `none` means the flag was absent on
the command line.  Which arguments are `required(true)` in `main.rs` is
captured by `missingRequired` below. -/
inductive Cmd
  | all (bam out graph nproc : Option String)
  | convert (bam pairs graph : Option String)
  | sortCmd (inPairs outPairs nproc : Option String)
  | dedup (inPairs outPairs : Option String)
  deriving DecidableEq, Repr

/-- A full invocation: either no subcommand was given (clap yields the
`("", None)` case of the `match` in `main`) or one subcommand with its
arguments. -/
inductive Invocation
  | noSub
  | sub (c : Cmd)
  deriving DecidableEq, Repr

/-- Required-argument check performed by clap's `get_matches` before `main`'s
`match` runs: `bam`/`out` for `all`, `bam`/`pairs` for `convert`,
`in_pairs`/`out_pairs` for `sort` and `dedup`.  `graph` and `nproc` are
`required(false)`. -/
def missingRequired : Invocation → Bool
  | .noSub => false
  | .sub (.all bam out _ _) => bam.isNone || out.isNone
  | .sub (.convert bam pairs _) => bam.isNone || pairs.isNone
  | .sub (.sortCmd i o _) => i.isNone || o.isNone
  | .sub (.dedup i o) => i.isNone || o.isNone

/-- One call into the `hic_convertor` library, with the exact argument values
`main.rs` passes. -/
inductive StageCall
  | fullPipeline (bam : String) (graph : Option String) (outDir : String) (nproc : Nat)
  | convertBam (bam : String) (graph : Option String) (pairs : String) (stats : String)
  | sortPairs (inPairs outPairs : String) (tmpDir : Option String) (nproc : Nat)
  | dedupPairs (inPairs outPairs : String)
  deriving DecidableEq, Repr

/-- Results returned by the four library entry points.  The bodies live in the
`hic_convertor` crate, outside the snapshot, so `main` is modelled relative to
an arbitrary environment of stage results.  `deduplicate_pairs` is modelled as
fallible as well: the specification classifies unreadable input and unwritable
output as stage-fatal errors that the stage reports to its caller. -/
structure StageEnv where
  fullPipelineRes : String → Option String → String → Nat → Except String Unit
  convertRes : String → Option String → String → String → Except String Unit
  sortRes : String → String → Option String → Nat → Except String Unit
  dedupRes : String → String → Except String Unit

/-- Outcome of one run of `main`: clap rejected the command line before the
dispatch `match` (process exits with a usage error), the process panicked
(the `unwrap` on the `nproc` parse), or `main` returned a `Result` after
performing the recorded stage calls. -/
inductive MainResult
  | parseError
  | panicked
  | finished (res : Except String Unit) (calls : List StageCall)
  deriving Repr

/-- Stage calls performed by a run; none when the command line was rejected or
the process panicked before reaching a stage. -/
def stageCalls : MainResult → List StageCall
  | .parseError => []
  | .panicked => []
  | .finished _ calls => calls

/-- Embedding of the dispatch `match` of `main` in `main.rs`, line by line:

* `("", None)`: print a message and fall through to `Ok(())` — no stage runs;
* `all`: unwrap `bam`/`out`, parse `nproc` with default `"4"` (panicking on a
  bad value), then `match` on `graph` — both arms pass `None` as the graph
  argument of `full_pipeline` — and propagate its result with `?`;
* `convert`: unwrap `bam`/`pairs`, then `match` on `graph` — both arms pass
  `None` and the literal stats path `"stats.txt"` to `convert_bam_to_pairs` —
  and propagate with `?`;
* `sort`: unwrap the two files, parse `nproc` as above, call `sort_pairs` with
  the literal scratch path `"tmp_sort_dir"` and propagate with `?`;
* `dedup`: unwrap the two files and call `deduplicate_pairs` with no `?`:
  its result is discarded and `main` falls through to `Ok(())`. -/
def runMain (env : StageEnv) : Invocation → MainResult
  | .noSub => .finished (.ok ()) []
  | .sub (.all bam out graph nprocArg) =>
    match bam, out with
    | some b, some o =>
      match parseU8 (nprocArg.getD "4") with
      | none => .panicked
      | some np =>
        match graph with
        | none => .finished (env.fullPipelineRes b none o np) [.fullPipeline b none o np]
        | some _ => .finished (env.fullPipelineRes b none o np) [.fullPipeline b none o np]
    | _, _ => .parseError
  | .sub (.convert bam pairs graph) =>
    match bam, pairs with
    | some b, some p =>
      match graph with
      | none =>
        .finished (env.convertRes b none p "stats.txt") [.convertBam b none p "stats.txt"]
      | some _ =>
        .finished (env.convertRes b none p "stats.txt") [.convertBam b none p "stats.txt"]
    | _, _ => .parseError
  | .sub (.sortCmd inPairs outPairs nprocArg) =>
    match inPairs, outPairs with
    | some i, some o =>
      match parseU8 (nprocArg.getD "4") with
      | none => .panicked
      | some np =>
        .finished (env.sortRes i o (some "tmp_sort_dir") np)
          [.sortPairs i o (some "tmp_sort_dir") np]
    | _, _ => .parseError
  | .sub (.dedup inPairs outPairs) =>
    match inPairs, outPairs with
    | some i, some o => .finished (.ok ()) [.dedupPairs i o]
    | _, _ => .parseError

/-- Sample stage environment whose dedup stage fails, used to instantiate the
universally quantified theorems at concrete inputs. -/
def sampleEnv : StageEnv where
  fullPipelineRes := fun _ _ _ _ => .ok ()
  convertRes := fun _ _ _ _ => .ok ()
  sortRes := fun _ _ _ _ => .ok ()
  dedupRes := fun _ _ => .error "dedup stage failed"

/-! ## Pair records

Modelled from the spec: the `PairRecord` data model of §3 — read identifier,
two `(chrom, pos, strand)` ends and a pair-type tag.  Chromosome names are
modelled as numeric identifiers. -/

/-- Classification tag of a pair record: `{unmapped, multi, normal,
graph-mapped}`. -/
inductive PairTag
  | normal
  | graphMapped
  | unmapped
  | multi
  deriving DecidableEq, Repr

/-- Modelled from the spec: one genomic contact observation (§3
`PairRecord`). -/
structure PairRecord where
  readId : String
  chrom1 : Nat
  pos1 : Nat
  strand1 : Bool
  chrom2 : Nat
  pos2 : Nat
  strand2 : Bool
  tag : PairTag
  deriving DecidableEq, Repr

/-- Sort key of a record: `(chrom1, pos1, chrom2, pos2)`. -/
def keyOf (r : PairRecord) : Nat × Nat × Nat × Nat :=
  (r.chrom1, r.pos1, r.chrom2, r.pos2)

/-- Lexicographic comparison of two sort keys. -/
def key4Le : Nat × Nat × Nat × Nat → Nat × Nat × Nat × Nat → Bool
  | (a1, b1, c1, d1), (a2, b2, c2, d2) =>
    decide (a1 < a2) ||
      (a1 == a2 && (decide (b1 < b2) ||
        (b1 == b2 && (decide (c1 < c2) ||
          (c1 == c2 && decide (d1 ≤ d2))))))

/-- Ascending lexicographic order on records under the key
`(chrom1, pos1, chrom2, pos2)`. -/
def keyLe (r s : PairRecord) : Bool :=
  key4Le (keyOf r) (keyOf s)

theorem key4Le_refl (k : Nat × Nat × Nat × Nat) : key4Le k k = true := by
  obtain ⟨a, b, c, d⟩ := k
  simp [key4Le]

theorem key4Le_trans (k l m : Nat × Nat × Nat × Nat) (h1 : key4Le k l = true)
    (h2 : key4Le l m = true) : key4Le k m = true := by
  obtain ⟨a1, b1, c1, d1⟩ := k
  obtain ⟨a2, b2, c2, d2⟩ := l
  obtain ⟨a3, b3, c3, d3⟩ := m
  simp only [key4Le, Bool.or_eq_true, Bool.and_eq_true, decide_eq_true_eq,
    beq_iff_eq] at h1 h2 ⊢
  omega

theorem key4Le_total (k l : Nat × Nat × Nat × Nat) :
    (key4Le k l || key4Le l k) = true := by
  obtain ⟨a1, b1, c1, d1⟩ := k
  obtain ⟨a2, b2, c2, d2⟩ := l
  simp only [key4Le, Bool.or_eq_true, Bool.and_eq_true, decide_eq_true_eq,
    beq_iff_eq]
  omega

theorem keyLe_refl (r : PairRecord) : keyLe r r = true :=
  key4Le_refl _

theorem keyLe_trans (a b c : PairRecord) (h1 : keyLe a b = true)
    (h2 : keyLe b c = true) : keyLe a c = true :=
  key4Le_trans _ _ _ h1 h2

theorem keyLe_total (a b : PairRecord) : (keyLe a b || keyLe b a) = true :=
  key4Le_total _ _

/-- Records with equal sort keys compare `≤` in both directions. -/
theorem keyLe_of_keyOf_eq {a b : PairRecord} (h : keyOf a = keyOf b) :
    keyLe a b = true := by
  unfold keyLe
  rw [h]
  exact key4Le_refl _

/-! ## Pair deduplicator

Modelled from the spec: §4.3 — first occurrence of a fingerprint is kept;
every subsequent record with an identical fingerprint is a duplicate and
dropped; the stage reports the deduplicated sequence plus a duplicate
count. -/

/-- Duplicate fingerprint of a record: the canonicalized
`(chrom1, pos1, strand1, chrom2, pos2, strand2)` tuple, recomputed on
demand (§3). -/
def fingerprint (r : PairRecord) : Nat × Nat × Bool × Nat × Nat × Bool :=
  (r.chrom1, r.pos1, r.strand1, r.chrom2, r.pos2, r.strand2)

/-- Worker for the deduplicator: scan the stream keeping the set of
fingerprints seen so far; a record whose fingerprint was already seen is
dropped and counted, any other record is kept and its fingerprint
remembered. -/
def dedupGo (seen : List (Nat × Nat × Bool × Nat × Nat × Bool)) :
    List PairRecord → List PairRecord × Nat
  | [] => ([], 0)
  | r :: rs =>
    if fingerprint r ∈ seen then
      ((dedupGo seen rs).1, (dedupGo seen rs).2 + 1)
    else
      (r :: (dedupGo (fingerprint r :: seen) rs).1,
        (dedupGo (fingerprint r :: seen) rs).2)

/-- Modelled from the spec: `deduplicate_pairs` — deduplicated stream plus
number of duplicates removed. -/
def deduplicatePairs (l : List PairRecord) : List PairRecord × Nat :=
  dedupGo [] l

/-! ## External sorter

Modelled from the spec: §4.4 — partition the input into bounded-size chunks,
sort each chunk in memory (one worker per chunk, up to the configured worker
count), then perform a k-way merge across all sorted chunks, earlier chunks
winning ties so that the overall sort is stable.  Worker parallelism is
modelled by distributing the chunk list over the workers and reassembling the
sorted chunks in their original order before the merge; the worker count
affects scheduling only, never the merged output. -/

/-- Partition a list into consecutive chunks of `n + 1` elements (the last
chunk may be shorter).  The bound is kept positive so that the split always
makes progress. -/
def toChunks (n : Nat) : List α → List (List α)
  | [] => []
  | a :: l => (a :: l.take n) :: toChunks n (l.drop n)
termination_by l => l.length
decreasing_by
  simp only [List.length_cons, List.length_drop]
  omega

/-- Distribution of the chunk list over `np` workers: consecutive groups of
chunks, one group per worker. -/
def workerGroups (np : Nat) (cs : List (List PairRecord)) :
    List (List (List PairRecord)) :=
  toChunks (cs.length / np) cs

/-- K-way merge of the sorted chunks, in chunk order; on equal keys the
earlier chunk's record is emitted first. -/
def kWayMerge : List (List PairRecord) → List PairRecord
  | [] => []
  | c :: cs => List.merge c (kWayMerge cs) keyLe

/-- Modelled from the spec: `sort_pairs` — bounded-memory multi-worker
external merge sort.  `cap` bounds the chunk size, `np` is the worker
count. -/
def sortPairsModel (cap np : Nat) (l : List PairRecord) : List PairRecord :=
  let cs := toChunks cap l
  let sortedChunks :=
    ((workerGroups np cs).map (fun g => g.map (fun c => c.mergeSort keyLe))).flatten
  kWayMerge sortedChunks

/-! ## Coordinate mapper and alignment-pair extractor

Modelled from the spec: §4.1 and §4.2.  Alignment groups are abstracted to
the per-mate resolution the extractor computes from them: a primary alignment
with its coordinates, an unmapped mate, or a mate with only
secondary/supplementary alignments (no primary — flagged `multi`). -/

/-- Interval of the per-contig interval index of the coordinate mapper:
offsets `start ≤ off < stop` on `contig` belong to `segment`. -/
structure GraphInterval where
  contig : Nat
  start : Nat
  stop : Nat
  segment : Nat
  deriving DecidableEq, Repr

/-- Modelled from the spec: the Coordinate Mapper (§4.2), a per-contig
interval index built once from the graph. -/
structure CoordMapper where
  intervals : List GraphInterval
  deriving DecidableEq, Repr

/-- Lookup of `(contig, offset)` in the interval index: the containing
segment and the offset within it, or `none` (mapping-not-found) when the
offset lies outside all known intervals for that contig. -/
def mapCoord (m : CoordMapper) (contig off : Nat) : Option (Nat × Nat) :=
  match m.intervals.find?
      (fun iv => iv.contig == contig && decide (iv.start ≤ off) && decide (off < iv.stop)) with
  | some iv => some (iv.segment, off - iv.start)
  | none => none

/-- Resolution of one mate within an alignment group. -/
inductive MateResolution
  | primary (chrom pos : Nat) (strand : Bool)
  | unmapped
  | multiOnly
  deriving DecidableEq, Repr

/-- Modelled from the spec: an `AlignmentGroup` (§3), abstracted to the
outcome of primary-alignment selection per mate; `malformed` marks a group
with a missing identifier or corrupt position, which is skipped and
counted. -/
structure AlignmentGroup where
  readId : String
  malformed : Bool
  mate1 : MateResolution
  mate2 : MateResolution
  deriving DecidableEq, Repr

/-- Canonical end order of a pair record: the two ends are swapped when the
key of the second end is strictly smaller, so that `(chrom1, pos1) ≤
(chrom2, pos2)` holds in the emitted record (§3 invariant). -/
def mkCanonical (id : String) (c1 p1 : Nat) (s1 : Bool) (c2 p2 : Nat) (s2 : Bool)
    (t : PairTag) : PairRecord :=
  if c2 < c1 || (c2 == c1 && decide (p2 < p1)) then
    ⟨id, c2, p2, s2, c1, p1, s1, t⟩
  else
    ⟨id, c1, p1, s1, c2, p2, s2, t⟩

/-- Classification of one alignment group (§4.1): malformed groups are
skipped; a mate without a primary alignment flags the pair `multi`; an
unmapped mate yields an `unmapped` record; two resolved mates yield a
canonicalized `normal` record, or — when a mapper is supplied — a
`graph-mapped` record with both ends translated through the mapper, a
mapping miss being treated as an unmapped mate. -/
def classifyGroup (mapper : Option CoordMapper) (g : AlignmentGroup) :
    Option PairRecord :=
  if g.malformed then none
  else
    match g.mate1, g.mate2 with
    | .multiOnly, _ => some ⟨g.readId, 0, 0, false, 0, 0, false, .multi⟩
    | _, .multiOnly => some ⟨g.readId, 0, 0, false, 0, 0, false, .multi⟩
    | .unmapped, _ => some ⟨g.readId, 0, 0, false, 0, 0, false, .unmapped⟩
    | _, .unmapped => some ⟨g.readId, 0, 0, false, 0, 0, false, .unmapped⟩
    | .primary c1 p1 s1, .primary c2 p2 s2 =>
      match mapper with
      | none => some (mkCanonical g.readId c1 p1 s1 c2 p2 s2 .normal)
      | some m =>
        match mapCoord m c1 p1, mapCoord m c2 p2 with
        | some (g1, o1), some (g2, o2) =>
          some (mkCanonical g.readId g1 o1 s1 g2 o2 s2 .graphMapped)
        | _, _ => some ⟨g.readId, 0, 0, false, 0, 0, false, .unmapped⟩

/-- Modelled from the spec: the `PipelineStats` accumulator (§3) — total
reads, per-type emission counters, skipped malformed records, emitted pairs,
duplicates removed and final record count. -/
structure PipelineStats where
  totalReads : Nat
  normal : Nat
  graphMapped : Nat
  unmapped : Nat
  multi : Nat
  skipped : Nat
  emittedPairs : Nat
  deriving DecidableEq, Repr

/-- Empty statistics at the start of a run. -/
def emptyStats : PipelineStats := ⟨0, 0, 0, 0, 0, 0, 0⟩

/-- Increment of the counter of the record's tag, together with the emitted
count (§4.1 side effect: counters are bumped as records are classified). -/
def bumpStats (st : PipelineStats) (r : PairRecord) : PipelineStats :=
  match r.tag with
  | .normal => { st with normal := st.normal + 1, emittedPairs := st.emittedPairs + 1 }
  | .graphMapped =>
    { st with graphMapped := st.graphMapped + 1, emittedPairs := st.emittedPairs + 1 }
  | .unmapped => { st with unmapped := st.unmapped + 1, emittedPairs := st.emittedPairs + 1 }
  | .multi => { st with multi := st.multi + 1, emittedPairs := st.emittedPairs + 1 }

/-- Worker for the extractor: single pass over the alignment groups, carrying
the statistics accumulator. -/
def extractGo (mapper : Option CoordMapper) (st : PipelineStats) :
    List AlignmentGroup → List PairRecord × PipelineStats
  | [] => ([], st)
  | g :: gs =>
    let st1 := { st with totalReads := st.totalReads + 1 }
    match classifyGroup mapper g with
    | none => extractGo mapper { st1 with skipped := st1.skipped + 1 } gs
    | some r =>
      ((r :: (extractGo mapper (bumpStats st1 r) gs).1),
        (extractGo mapper (bumpStats st1 r) gs).2)

/-- Modelled from the spec: the Alignment Pair Extractor (§4.1) — a single
pass over the grouped alignment records, emitting classified pair records and
accumulating statistics. -/
def extractPairs (mapper : Option CoordMapper) (gs : List AlignmentGroup) :
    List PairRecord × PipelineStats :=
  extractGo mapper emptyStats gs

/-! ## Pipeline orchestrator

Modelled from the spec: §4.5 — the orchestrator executes the requested stage
subset in order (full run: Extract → Dedup → Sort) and records
statistics. -/

/-- One pipeline stage. -/
inductive Stage
  | extract
  | dedupStage
  | sortStage
  deriving DecidableEq, Repr

/-- State threaded through the orchestrator: inputs, current record stream,
statistics, duplicate count and the trace of stages executed so far. -/
structure PipeState where
  groups : List AlignmentGroup
  mapper : Option CoordMapper
  cap : Nat
  np : Nat
  records : List PairRecord
  stats : PipelineStats
  dups : Nat
  trace : List Stage

/-- Execution of one stage on the pipeline state, appending it to the
trace. -/
def runStage (s : PipeState) : Stage → PipeState
  | .extract =>
    { s with
      records := (extractPairs s.mapper s.groups).1
      stats := (extractPairs s.mapper s.groups).2
      trace := s.trace ++ [.extract] }
  | .dedupStage =>
    { s with
      records := (deduplicatePairs s.records).1
      dups := (deduplicatePairs s.records).2
      trace := s.trace ++ [.dedupStage] }
  | .sortStage =>
    { s with
      records := sortPairsModel s.cap s.np s.records
      trace := s.trace ++ [.sortStage] }

/-- Execution of a requested stage subset, in order. -/
def orchestrate (stages : List Stage) (s : PipeState) : PipeState :=
  stages.foldl runStage s

/-- Stage subset of a full run: Extract, then Dedup, then Sort (§4.5). -/
def fullRunStages : List Stage := [.extract, .dedupStage, .sortStage]

/-- Initial pipeline state of a run. -/
def initState (mapper : Option CoordMapper) (gs : List AlignmentGroup)
    (cap np : Nat) : PipeState :=
  ⟨gs, mapper, cap, np, [], emptyStats, 0, []⟩

/-- Modelled from the spec: `full_pipeline` — the orchestrator running the
full stage subset on the initial state. -/
def fullPipelineModel (mapper : Option CoordMapper) (gs : List AlignmentGroup)
    (cap np : Nat) : PipeState :=
  orchestrate fullRunStages (initState mapper gs cap np)

/-! ## Sorter lemmas -/

/-- Filtering a stable two-way merge by a predicate closed under the order
splits into the two filtered runs, provided the left run is sorted: on equal
keys the merge emits the left run's records first. -/
theorem filter_merge_of_pairwise {α : Type} {le : α → α → Bool} {p : α → Bool}
    (htrans : ∀ a b c, le a b = true → le b c = true → le a c = true)
    (hp : ∀ a b, p a = true → p b = true → le a b = true) :
    ∀ (xs ys : List α), xs.Pairwise (fun a b => le a b = true) →
      (List.merge xs ys le).filter p = xs.filter p ++ ys.filter p
  | [], ys, _ => by simp
  | x :: xs, [], _ => by simp
  | x :: xs, y :: ys, hx => by
    by_cases h : le x y = true
    · have hmerge : List.merge (x :: xs) (y :: ys) le = x :: List.merge xs (y :: ys) le :=
        List.cons_merge_cons_pos le xs ys h
      rw [hmerge]
      simp only [List.filter_cons,
        filter_merge_of_pairwise htrans hp xs (y :: ys) hx.tail]
      cases hpx : p x <;> simp
    · have hmerge : List.merge (x :: xs) (y :: ys) le = y :: List.merge (x :: xs) ys le :=
        List.cons_merge_cons_neg le xs ys h
      rw [hmerge, List.filter_cons,
        filter_merge_of_pairwise htrans hp (x :: xs) ys hx]
      cases hpy : p y
      · simp [List.filter_cons, hpy]
      · have hnil : (x :: xs).filter p = [] := by
          rw [List.filter_eq_nil_iff]
          intro a ha hpa
          have hay : le a y = true := hp a y (by simpa using hpa) hpy
          have hxy : le x y = true := by
            rcases List.mem_cons.mp ha with rfl | hmem
            · exact hay
            · exact htrans x a y (List.rel_of_pairwise_cons hx hmem) hay
          exact h hxy
        simp [List.filter_cons, hpy, hnil]
termination_by xs ys => xs.length + ys.length

/-- K-way merge of sorted runs is sorted. -/
theorem pairwise_kWayMerge :
    ∀ cs : List (List PairRecord),
      (∀ c ∈ cs, c.Pairwise (fun a b => keyLe a b = true)) →
      (kWayMerge cs).Pairwise (fun a b => keyLe a b = true)
  | [], _ => List.Pairwise.nil
  | c :: cs, h =>
    List.sorted_merge keyLe_trans keyLe_total c (kWayMerge cs)
      (h c (List.mem_cons_self c cs))
      (pairwise_kWayMerge cs (fun d hd => h d (List.mem_cons_of_mem c hd)))

/-- Filtering a k-way merge of sorted runs by a predicate closed under the
order yields the filtered runs in chunk order: the merge is stable across
chunks. -/
theorem filter_kWayMerge (p : PairRecord → Bool)
    (hp : ∀ a b, p a = true → p b = true → keyLe a b = true) :
    ∀ cs : List (List PairRecord),
      (∀ c ∈ cs, c.Pairwise (fun a b => keyLe a b = true)) →
      (kWayMerge cs).filter p = (cs.map (List.filter p)).flatten
  | [], _ => rfl
  | c :: cs, h => by
    show (List.merge c (kWayMerge cs) keyLe).filter p = _
    rw [filter_merge_of_pairwise keyLe_trans hp c (kWayMerge cs)
        (h c (List.mem_cons_self c cs)),
      filter_kWayMerge p hp cs (fun d hd => h d (List.mem_cons_of_mem c hd))]
    simp

/-- Chunk-local stability: filtering the in-memory merge sort of a chunk by a
predicate closed under the order leaves the filtered subsequence unchanged. -/
theorem filter_mergeSort_eq (p : PairRecord → Bool)
    (hp : ∀ a b, p a = true → p b = true → keyLe a b = true)
    (l : List PairRecord) :
    (l.mergeSort keyLe).filter p = l.filter p := by
  have hpair : (l.filter p).Pairwise (fun a b => keyLe a b = true) := by
    apply List.pairwise_of_forall_mem_list
    intro a ha b hb
    exact hp a b (List.mem_filter.mp ha).2 (List.mem_filter.mp hb).2
  have hsub : List.Sublist (l.filter p) (l.mergeSort keyLe) :=
    List.sublist_mergeSort keyLe_trans keyLe_total hpair (List.filter_sublist l)
  have hsub2 : List.Sublist (l.filter p) ((l.mergeSort keyLe).filter p) := by
    have h2 := hsub.filter p
    simpa only [List.filter_filter, Bool.and_self] using h2
  have hperm : List.Perm ((l.mergeSort keyLe).filter p) (l.filter p) :=
    (List.mergeSort_perm l keyLe).filter p
  exact (hsub2.eq_of_length hperm.length_eq.symm).symm

/-- Concatenating the chunks of a list restores the list. -/
theorem flatten_toChunks {α : Type} (n : Nat) :
    ∀ l : List α, (toChunks n l).flatten = l
  | [] => by simp [toChunks]
  | a :: l => by
    have ih := flatten_toChunks n (l.drop n)
    simp only [toChunks, List.flatten_cons, ih, List.cons_append,
      List.take_append_drop]
termination_by l => l.length
decreasing_by simp only [List.length_cons, List.length_drop]; omega

/-- Distributing the chunks over the workers and reassembling the per-chunk
sort results in chunk order is independent of the worker count. -/
theorem sortedChunks_eq (cap np : Nat) (l : List PairRecord) :
    ((workerGroups np (toChunks cap l)).map
        (fun g => g.map (fun c => c.mergeSort keyLe))).flatten
      = (toChunks cap l).map (fun c => c.mergeSort keyLe) := by
  unfold workerGroups
  rw [← List.map_flatten, flatten_toChunks]

/-- Unfolding of the sorter model to its worker-count-independent core. -/
theorem sortPairsModel_eq (cap np : Nat) (l : List PairRecord) :
    sortPairsModel cap np l
      = kWayMerge ((toChunks cap l).map (fun c => c.mergeSort keyLe)) := by
  show kWayMerge
      (((workerGroups np (toChunks cap l)).map
        (fun g => g.map (fun c => c.mergeSort keyLe))).flatten) = _
  rw [sortedChunks_eq]

/-! ## Deduplicator lemmas -/

/-- Records kept by the deduplicator have pairwise-distinct fingerprints, and
none of them carries a fingerprint that was already in the seen set. -/
theorem dedupGo_output_nodup (seen : List (Nat × Nat × Bool × Nat × Nat × Bool)) :
    ∀ l : List PairRecord,
      (dedupGo seen l).1.Pairwise (fun a b => fingerprint a ≠ fingerprint b)
        ∧ ∀ r ∈ (dedupGo seen l).1, fingerprint r ∉ seen
  | [] => ⟨List.Pairwise.nil, by intro r hr; cases hr⟩
  | r :: rs => by
    by_cases h : fingerprint r ∈ seen
    · have ih := dedupGo_output_nodup seen rs
      simp only [dedupGo, if_pos h]
      exact ih
    · have ih := dedupGo_output_nodup (fingerprint r :: seen) rs
      simp only [dedupGo, if_neg h]
      refine ⟨List.Pairwise.cons ?_ ih.1, ?_⟩
      · intro b hb
        have hnot := ih.2 b hb
        intro hfp
        exact hnot (hfp ▸ List.mem_cons_self _ _)
      · intro s hs
        rcases List.mem_cons.mp hs with rfl | hmem
        · exact h
        · exact fun hmem2 => ih.2 s hmem (List.mem_cons_of_mem _ hmem2)

/-- On a stream whose fingerprints are pairwise distinct and disjoint from
the seen set, the deduplicator keeps everything and removes nothing. -/
theorem dedupGo_of_nodup (seen : List (Nat × Nat × Bool × Nat × Nat × Bool)) :
    ∀ l : List PairRecord,
      (∀ r ∈ l, fingerprint r ∉ seen) →
      l.Pairwise (fun a b => fingerprint a ≠ fingerprint b) →
      dedupGo seen l = (l, 0)
  | [], _, _ => rfl
  | r :: rs, hdisj, hpair => by
    have h : fingerprint r ∉ seen := hdisj r (List.mem_cons_self _ _)
    simp only [dedupGo, if_neg h]
    rw [dedupGo_of_nodup (fingerprint r :: seen) rs ?_ hpair.tail]
    intro s hs
    intro hmem
    rcases List.mem_cons.mp hmem with heq | hmem2
    · exact List.rel_of_pairwise_cons hpair hs heq.symm
    · exact hdisj s (List.mem_cons_of_mem _ hs) hmem2

/-- Kept records plus removed duplicates account for the whole input. -/
theorem dedupGo_length (seen : List (Nat × Nat × Bool × Nat × Nat × Bool)) :
    ∀ l : List PairRecord,
      (dedupGo seen l).1.length + (dedupGo seen l).2 = l.length
  | [] => rfl
  | r :: rs => by
    by_cases h : fingerprint r ∈ seen
    · have ih := dedupGo_length seen rs
      simp only [dedupGo, if_pos h, List.length_cons]
      omega
    · have ih := dedupGo_length (fingerprint r :: seen) rs
      simp only [dedupGo, if_neg h, List.length_cons]
      omega

/-! ## Statistics lemmas -/

/-- Conservation invariant of the statistics accumulator: emitted pairs are
partitioned by the four classification tags. -/
def statsInv (st : PipelineStats) : Prop :=
  st.emittedPairs = st.normal + st.graphMapped + st.unmapped + st.multi

/-- Bumping the counter of one emitted record preserves the conservation
invariant. -/
theorem statsInv_bump (st : PipelineStats) (r : PairRecord) (h : statsInv st) :
    statsInv (bumpStats st r) := by
  cases htag : r.tag <;>
    simp only [statsInv, bumpStats, htag] at h ⊢ <;> omega

/-- The extractor worker preserves the conservation invariant. -/
theorem extractGo_statsInv (mapper : Option CoordMapper) :
    ∀ (gs : List AlignmentGroup) (st : PipelineStats), statsInv st →
      statsInv (extractGo mapper st gs).2
  | [], _, h => h
  | g :: gs, st, h => by
    cases hcl : classifyGroup mapper g with
    | none =>
      simp only [extractGo, hcl]
      exact extractGo_statsInv mapper gs _ h
    | some r =>
      simp only [extractGo, hcl]
      exact extractGo_statsInv mapper gs _
        (statsInv_bump _ r (by simpa [statsInv] using h))

/-! ## Claim theorems: the command-line front end -/

/-- Claim C1.  The claim states that supplying a graph file makes `main`
inject the graph-based coordinate-resolution variant (pass the graph to the
pipeline, producing graph-mapped records).  The code does not: in both the
`all` and the `convert` subcommands, both arms of the `match` on the optional
`graph` argument pass `None` as the graph parameter, so the stage call
carries no graph even when `--graph` was supplied on the command line. -/
theorem claim_C1_graph_argument_dropped (env : StageEnv) (b o p g : String) :
    runMain env (.sub (.all (some b) (some o) (some g) none)) =
      .finished (env.fullPipelineRes b none o 4) [.fullPipeline b none o 4]
    ∧ runMain env (.sub (.convert (some b) (some p) (some g))) =
      .finished (env.convertRes b none p "stats.txt")
        [.convertBam b none p "stats.txt"] :=
  ⟨rfl, rfl⟩

/-- Claim C2.  The claim states that a failing stage surfaces its error as
the top-level result for every stage, including standalone dedup.  The code
does not: the `dedup` arm of `main` calls `deduplicate_pairs` without `?`,
discarding its result, so `main` returns `Ok(())` even when the dedup stage
fails. -/
theorem claim_C2_dedup_error_not_surfaced (env : StageEnv) (i o msg : String)
    (_h : env.dedupRes i o = .error msg) :
    runMain env (.sub (.dedup (some i) (some o))) =
      .finished (.ok ()) [.dedupPairs i o] :=
  rfl

/-- Witness for C2: a concrete environment whose dedup stage fails, on which
`main` nevertheless finishes with `Ok(())` after invoking the stage. -/
theorem claim_C2_witness :
    sampleEnv.dedupRes "in.pairs" "out.pairs" = .error "dedup stage failed"
    ∧ runMain sampleEnv (.sub (.dedup (some "in.pairs") (some "out.pairs"))) =
      .finished (.ok ()) [.dedupPairs "in.pairs" "out.pairs"] :=
  ⟨rfl, claim_C2_dedup_error_not_surfaced sampleEnv "in.pairs" "out.pairs"
    "dedup stage failed" rfl⟩

/-- Claim C8.  An invocation with a missing required parameter — or with no
subcommand at all — is rejected before any pipeline stage starts: no library
stage function is invoked. -/
theorem claim_C8_config_error_no_stage (env : StageEnv) (inv : Invocation)
    (h : missingRequired inv = true ∨ inv = .noSub) :
    stageCalls (runMain env inv) = [] := by
  rcases h with h | rfl
  · cases inv with
    | noSub => simp [missingRequired] at h
    | sub c =>
      cases c with
      | all bam out graph nproc =>
        cases bam with
        | none => rfl
        | some b =>
          cases out with
          | none => rfl
          | some o => simp [missingRequired] at h
      | convert bam pairs graph =>
        cases bam with
        | none => rfl
        | some b =>
          cases pairs with
          | none => rfl
          | some p => simp [missingRequired] at h
      | sortCmd i o nproc =>
        cases i with
        | none => rfl
        | some i2 =>
          cases o with
          | none => rfl
          | some o2 => simp [missingRequired] at h
      | dedup i o =>
        cases i with
        | none => rfl
        | some i2 =>
          cases o with
          | none => rfl
          | some o2 => simp [missingRequired] at h
  · rfl

/-- Witness for C8: a `sort` invocation missing its required input file
performs no stage call. -/
theorem claim_C8_witness :
    missingRequired (.sub (.sortCmd none (some "out.pairs") none)) = true
    ∧ stageCalls (runMain sampleEnv (.sub (.sortCmd none (some "out.pairs") none))) = [] :=
  ⟨rfl, claim_C8_config_error_no_stage sampleEnv
    (.sub (.sortCmd none (some "out.pairs") none)) (Or.inl rfl)⟩

/-- Claim C9.  When `nproc` is omitted on `all` or `sort`, the worker count
passed to the stage is the default 4; when `nproc` is supplied but does not
parse as a `u8` (not a decimal integer in `0..=255`), the process panics via
`unwrap` instead of returning an error value. -/
theorem claim_C9_nproc_default_and_panic (env : StageEnv) (b o i op s : String)
    (g : Option String) :
    (runMain env (.sub (.all (some b) (some o) g none)) =
      .finished (env.fullPipelineRes b none o 4) [.fullPipeline b none o 4])
    ∧ (runMain env (.sub (.sortCmd (some i) (some op) none)) =
      .finished (env.sortRes i op (some "tmp_sort_dir") 4)
        [.sortPairs i op (some "tmp_sort_dir") 4])
    ∧ (parseU8 s = none →
      runMain env (.sub (.all (some b) (some o) g (some s))) = .panicked)
    ∧ (parseU8 s = none →
      runMain env (.sub (.sortCmd (some i) (some op) (some s))) = .panicked) := by
  refine ⟨?_, rfl, ?_, ?_⟩
  · cases g <;> rfl
  · intro h
    cases g <;> simp [runMain, h]
  · intro h
    simp [runMain, h]

/-- Witness for C9: `nproc = "300"` exceeds `u8::MAX`, does not parse, and
the process panics. -/
theorem claim_C9_witness :
    parseU8 "300" = none
    ∧ runMain sampleEnv (.sub (.sortCmd (some "in.pairs") (some "out.pairs")
        (some "300"))) = .panicked :=
  ⟨rfl, (claim_C9_nproc_default_and_panic sampleEnv "b" "o" "in.pairs" "out.pairs"
    "300" none).2.2.2 rfl⟩

/-- Claim C10.  Every `sort_pairs` call made by `main` is given the fixed
relative scratch path `tmp_sort_dir`, and every `convert_bam_to_pairs` call
is given the fixed relative stats path `stats.txt`, whatever the
user-supplied arguments are. -/
theorem claim_C10_fixed_paths (env : StageEnv) (i o b p : String)
    (np g : Option String) :
    (∀ i2 o2 tmp n, StageCall.sortPairs i2 o2 tmp n ∈
        stageCalls (runMain env (.sub (.sortCmd (some i) (some o) np))) →
        tmp = some "tmp_sort_dir")
    ∧ (∀ b2 g2 p2 st, StageCall.convertBam b2 g2 p2 st ∈
        stageCalls (runMain env (.sub (.convert (some b) (some p) g))) →
        st = "stats.txt") := by
  constructor
  · intro i2 o2 tmp n hmem
    cases hnp : parseU8 (np.getD "4") with
    | none =>
      rw [show runMain env (.sub (.sortCmd (some i) (some o) np)) = .panicked from by
        simp [runMain, hnp]] at hmem
      cases hmem
    | some n3 =>
      rw [show runMain env (.sub (.sortCmd (some i) (some o) np)) =
          .finished (env.sortRes i o (some "tmp_sort_dir") n3)
            [.sortPairs i o (some "tmp_sort_dir") n3] from by
        simp [runMain, hnp]] at hmem
      have heq := List.mem_singleton.mp hmem
      injection heq
  · intro b2 g2 p2 st hmem
    have heq : StageCall.convertBam b2 g2 p2 st =
        StageCall.convertBam b none p "stats.txt" := by
      cases g with
      | none => exact List.mem_singleton.mp hmem
      | some g3 => exact List.mem_singleton.mp hmem
    injection heq

/-- Witness for C10: the concrete sort and convert invocations pass the
literal scratch and stats paths. -/
theorem claim_C10_witness :
    some "tmp_sort_dir" = some "tmp_sort_dir" ∧ "stats.txt" = "stats.txt" :=
  ⟨(claim_C10_fixed_paths sampleEnv "a" "b" "c" "d" none none).1 "a" "b"
      (some "tmp_sort_dir") 4 (List.mem_singleton.mpr rfl),
    (claim_C10_fixed_paths sampleEnv "a" "b" "c" "d" none none).2 "c" none "d"
      "stats.txt" (List.mem_singleton.mpr rfl)⟩

/-! ## Claim theorems: the pipeline components -/

/-- Claim C3.  A full run executes the stages in the order Extract, then
Dedup, then Sort: the stage trace of the orchestrator is exactly that
sequence, and the records it produces are the sort of the deduplication of
the extraction. -/
theorem claim_C3_full_run_stage_order (mapper : Option CoordMapper)
    (gs : List AlignmentGroup) (cap np : Nat) :
    (fullPipelineModel mapper gs cap np).trace =
      [Stage.extract, Stage.dedupStage, Stage.sortStage]
    ∧ (fullPipelineModel mapper gs cap np).records =
      sortPairsModel cap np (deduplicatePairs (extractPairs mapper gs).1).1 :=
  ⟨rfl, rfl⟩

/-- Claim C4.  For every input stream and worker count in {1, 4, 16}, the
output of the external sorter is non-decreasing under the key
`(chrom1, pos1, chrom2, pos2)` for every adjacent pair of records, and the
subsequence of records carrying any fixed key equals the corresponding
subsequence of the input — records with equal keys keep their original
relative order (stable sort). -/
theorem claim_C4_sort_sorted_and_stable (cap np : Nat) (l : List PairRecord)
    (_hnp : np = 1 ∨ np = 4 ∨ np = 16) :
    List.Chain' (fun a b => keyLe a b = true) (sortPairsModel cap np l)
    ∧ ∀ k : Nat × Nat × Nat × Nat,
        (sortPairsModel cap np l).filter (fun r => keyOf r == k)
          = l.filter (fun r => keyOf r == k) := by
  have hsorted : ∀ c ∈ (toChunks cap l).map (fun c => c.mergeSort keyLe),
      c.Pairwise (fun a b => keyLe a b = true) := by
    intro c hc
    rcases List.mem_map.mp hc with ⟨c0, hc0, rfl⟩
    exact List.sorted_mergeSort keyLe_trans keyLe_total c0
  constructor
  · rw [sortPairsModel_eq]
    exact (pairwise_kWayMerge _ hsorted).chain'
  · intro k
    have hp : ∀ a b : PairRecord, (keyOf a == k) = true → (keyOf b == k) = true →
        keyLe a b = true := by
      intro a b ha hb
      exact keyLe_of_keyOf_eq (by rw [eq_of_beq ha, eq_of_beq hb])
    rw [sortPairsModel_eq, filter_kWayMerge _ hp _ hsorted, List.map_map]
    have hmapeq : (toChunks cap l).map
          ((List.filter fun r => keyOf r == k) ∘ fun c => c.mergeSort keyLe)
        = (toChunks cap l).map (List.filter fun r => keyOf r == k) := by
      apply List.map_congr_left
      intro c hc
      exact filter_mergeSort_eq _ hp c
    rw [hmapeq, ← List.filter_flatten, flatten_toChunks]

/-- Concrete records exercising the sorter witness, with a duplicated key. -/
def sampleRecords : List PairRecord :=
  [⟨"q", 2, 1, false, 3, 3, true, .normal⟩,
   ⟨"r", 1, 1, true, 2, 2, false, .normal⟩,
   ⟨"s", 1, 1, false, 2, 2, false, .normal⟩]

/-- Witness for C4 at worker count 4, chunk bound 1 and a concrete key. -/
theorem claim_C4_witness :
    ((4 : Nat) = 1 ∨ (4 : Nat) = 4 ∨ (4 : Nat) = 16)
    ∧ List.Chain' (fun a b => keyLe a b = true) (sortPairsModel 1 4 sampleRecords)
    ∧ (sortPairsModel 1 4 sampleRecords).filter (fun r => keyOf r == (1, 1, 2, 2))
      = sampleRecords.filter (fun r => keyOf r == (1, 1, 2, 2)) :=
  ⟨Or.inr (Or.inl rfl),
    (claim_C4_sort_sorted_and_stable 1 4 sampleRecords (Or.inr (Or.inl rfl))).1,
    (claim_C4_sort_sorted_and_stable 1 4 sampleRecords (Or.inr (Or.inl rfl))).2
      (1, 1, 2, 2)⟩

/-- Claim C5.  The sorted output is a deterministic function of the input
content, independent of the worker count: sorting with any two worker counts
(in particular 1 and 8) yields identical output records in identical
order. -/
theorem claim_C5_sort_worker_count_independent (cap np1 np2 : Nat)
    (l : List PairRecord) :
    sortPairsModel cap np1 l = sortPairsModel cap np2 l := by
  rw [sortPairsModel_eq, sortPairsModel_eq]

/-- Claim C6.  The deduplicator is idempotent: run on its own output it
removes zero additional duplicates and keeps every record. -/
theorem claim_C6_dedup_idempotent (l : List PairRecord) :
    deduplicatePairs (deduplicatePairs l).1 = ((deduplicatePairs l).1, 0) := by
  unfold deduplicatePairs
  apply dedupGo_of_nodup
  · intro r hr
    exact List.not_mem_nil _
  · exact (dedupGo_output_nodup [] l).1

/-- Claim C7.  Conservation: the extractor's emitted-pair count is the sum of
the four per-type counters, and, on the subset of records fed to the
deduplicator, kept records plus removed duplicates account for every record
fed. -/
theorem claim_C7_conservation (mapper : Option CoordMapper)
    (gs : List AlignmentGroup) (l : List PairRecord) :
    (extractPairs mapper gs).2.emittedPairs =
      (extractPairs mapper gs).2.normal + (extractPairs mapper gs).2.graphMapped
        + (extractPairs mapper gs).2.unmapped + (extractPairs mapper gs).2.multi
    ∧ (deduplicatePairs l).1.length + (deduplicatePairs l).2 = l.length :=
  ⟨extractGo_statsInv mapper gs emptyStats rfl, dedupGo_length [] l⟩

end HicConv
